import Mathlib

set_option linter.unusedSectionVars false

/-!
Verification of the CCResourceLoader frame-sliced resource loader from
cocos2dx-common (include/CCResourceLoader.h).

The concrete load tasks (EncryptedImageLoadTask, EncryptedZwoptexLoadTask,
ZwoptexAnimLoadTask, ZwoptexAnimLoadTask2) are translated directly from the
header source.  The scheduler core — the bodies of `doLoad`, `run` and
`addLoadTask` — is only declared in the header (its implementation file is
not among the sources), so those operations are modelled from the
specification's scheduler state machine (spec sections 3, 4.2, 4.3, 7, 9).
Durations (C `float`) are embedded over an arbitrary linearly ordered
additive commutative group `α`, which covers the rational- and real-valued
readings of time; concrete evaluations instantiate `α := ℤ`.
-/

/-- Modelled from the spec: the scheduler states
Idle → Starting → Active → Finished (spec section 4.2; the `doLoad` body is
missing from the sources). -/
inductive SState
  | idle
  | starting
  | active
  | finished
deriving DecidableEq

/-- Listener notifications and unit executions, recorded as an event log:
`executed i` marks the call of unit `i`'s `load()`, `unitLoaded i n` the
`onUnitLoaded(i, n)` callback, `allLoaded` the `onAllLoaded()` callback. -/
inductive Event
  | executed (i : ℕ)
  | unitLoaded (i total : ℕ)
  | allLoaded
deriving DecidableEq

/-- A load task as the scheduler sees it: the post-execution idle duration
(`LoadTask::idle`) plus a flag telling whether its backend `load()` call
succeeds (consulted only by the fallible tick `advanceF`). -/
structure LoadUnit (α : Type) where
  idleAfter : α
  loadOk : Bool
deriving DecidableEq

/-- Modelled from the spec: the Scheduler state (spec section 3; the
`CCResourceLoader` implementation file is missing from the sources).  It owns
the load queue (`m_loadTaskList`), the cursor `nextIndex` (`m_nextLoad`), the
countdown `remainingIdle` (`m_remainingIdle`), the startup delay (`m_delay`)
and the log of unit executions and listener calls. -/
structure Scheduler (α : Type) where
  state : SState
  startupDelay : α
  remainingIdle : α
  nextIndex : ℕ
  queue : List (LoadUnit α)
  events : List Event
deriving DecidableEq

section SchedulerModel

variable {α : Type} [LinearOrderedAddCommGroup α]

/-- Modelled from the spec: tick rule 2 — while the countdown is positive it
is decreased by `delta` and clamped at zero (no carry-over of overshoot). -/
def drainTick (s : Scheduler α) (delta : α) : Scheduler α :=
  if 0 < s.remainingIdle then
    { s with remainingIdle := max (s.remainingIdle - delta) 0 }
  else s

/-- Modelled from the spec: tick rules 3 and 4 — execute the unit under the
cursor, advance the cursor, arm the countdown from the executed unit's idle
value, notify the listener of progress, and on the last unit transition to
Finished and fire `onAllLoaded` within the same tick. -/
def execNext (s : Scheduler α) : Scheduler α :=
  if h : s.nextIndex < s.queue.length then
    { s with
      nextIndex := s.nextIndex + 1,
      remainingIdle := (s.queue.get ⟨s.nextIndex, h⟩).idleAfter,
      state := if s.nextIndex + 1 = s.queue.length then SState.finished else SState.active,
      events := s.events ++
        [Event.executed s.nextIndex, Event.unitLoaded s.nextIndex s.queue.length] ++
        (if s.nextIndex + 1 = s.queue.length then [Event.allLoaded] else []) }
  else s

/-- Modelled from the spec: the tick operation `advance(delta)` (the header's
`doLoad(float delta)`, whose body is not among the sources).  A Finished or
not-yet-started scheduler ignores ticks (rules 1 and 5); otherwise the
countdown is drained and, when it reaches zero within the same tick, exactly
one unit is executed (rules 2–4). -/
def advance (s : Scheduler α) (delta : α) : Scheduler α :=
  if s.state = SState.idle ∨ s.state = SState.finished then s
  else if (drainTick s delta).remainingIdle = 0 then execNext (drainTick s delta)
  else drainTick s delta

end SchedulerModel

/-- Modelled from the spec: a unit's backend call failing during a tick
(spec section 7, error class (b)).  The error records the failing unit's
index and the scheduler state at the moment of the abort. -/
structure BackendExecutionError (α : Type) where
  failedIndex : ℕ
  aborted : Scheduler α
deriving DecidableEq

section SchedulerModel2

variable {α : Type} [LinearOrderedAddCommGroup α]

/-- Modelled from the spec: the tick with failure propagation (spec
section 7: the scheduler catches nothing; a failing `load()` aborts the tick
before the cursor moves and before any notification is emitted, and the
error surfaces out of the `advance` call). -/
def advanceF (s : Scheduler α) (delta : α) : Except (BackendExecutionError α) (Scheduler α) :=
  if s.state = SState.idle ∨ s.state = SState.finished then Except.ok s
  else if (drainTick s delta).remainingIdle = 0 ∧
      (drainTick s delta).nextIndex < (drainTick s delta).queue.length then
    if ((drainTick s delta).queue.getD (drainTick s delta).nextIndex ⟨0, true⟩).loadOk then
      Except.ok (advance s delta)
    else Except.error ⟨(drainTick s delta).nextIndex, drainTick s delta⟩
  else Except.ok (advance s delta)

/-- Modelled from the spec: `run()` (rule 1) — an Idle scheduler becomes
Starting and the countdown is armed with the startup delay; on any other
state `run()` does nothing. -/
def run (s : Scheduler α) : Scheduler α :=
  if s.state = SState.idle then
    { s with state := SState.starting, remainingIdle := s.startupDelay }
  else s

/-- Modelled from the spec: `addLoadTask` appends a unit at the tail of the
queue.  Spec section 9 records that the source guards nothing here: the
append is unconditional in every scheduler state and cannot fail. -/
def addLoadTask (s : Scheduler α) (u : LoadUnit α) : Scheduler α :=
  { s with queue := s.queue ++ [u] }

/-- Modelled from the spec: a freshly constructed loader with startup delay
`st`, before any task is added and before `run()` is called. -/
def newLoader (st : α) : Scheduler α :=
  { state := SState.idle, startupDelay := st, remainingIdle := 0,
    nextIndex := 0, queue := [], events := [] }

/-- The scheduler state right after `run()` on a loader built with startup
delay `st` and queue `q`. -/
def startLoader (st : α) (q : List (LoadUnit α)) : Scheduler α :=
  { state := SState.starting, startupDelay := st, remainingIdle := st,
    nextIndex := 0, queue := q, events := [] }

/-- Iterated ticking by the external frame clock. -/
def runTicks (s : Scheduler α) (ds : List α) : Scheduler α :=
  ds.foldl advance s

/-- The events emitted during one single tick. -/
def tickEvents (s : Scheduler α) (delta : α) : List Event :=
  (advance s delta).events.drop s.events.length

end SchedulerModel2

/-- The event log of a run that has executed the first `k` of `N` units. -/
def goodEventsCore (N : ℕ) : ℕ → List Event
  | 0 => []
  | k + 1 => goodEventsCore N k ++ [Event.executed k, Event.unitLoaded k N]

/-- The full event log after `k` of `N` units: the per-unit events, followed
by the single completion callback once everything is executed. -/
def goodEvents (N k : ℕ) : List Event :=
  goodEventsCore N k ++ (if k = N ∧ 0 < N then [Event.allLoaded] else [])

def isExecuted : Event → Bool
  | Event.executed _ => true
  | _ => false

def unitLoadedIndex : Event → Option ℕ
  | Event.unitLoaded i _ => some i
  | _ => none

section SchedulerModel3

variable {α : Type} [LinearOrderedAddCommGroup α]

/-- Sum of the idle durations of the first `k` queued units. -/
def idleSum (q : List (LoadUnit α)) (k : ℕ) : α :=
  ((q.take k).map LoadUnit.idleAfter).sum

/-- The simulated time still to elapse before the scheduler finishes, for a
non-finished scheduler: the idle budgets of all units before the last one
that are not yet consumed, plus the currently pending countdown. -/
def phi (s : Scheduler α) : α :=
  idleSum s.queue (s.queue.length - 1) - idleSum s.queue s.nextIndex + s.remainingIdle

/-- A tick schedule that never overshoots the pending countdown: each delta
is nonnegative and at most the remaining idle at that moment. -/
def fitSchedule : Scheduler α → List α → Bool
  | _, [] => true
  | s, d :: ds =>
      decide (0 ≤ d) && decide (d ≤ s.remainingIdle) && fitSchedule (advance s d) ds

/-- Structural well-formedness of a started scheduler, giving the exact
shape of the emitted event log. -/
def Wf (s : Scheduler α) : Prop :=
  0 ≤ s.remainingIdle ∧
  s.nextIndex ≤ s.queue.length ∧
  (∀ u ∈ s.queue, 0 ≤ u.idleAfter) ∧
  s.events = goodEvents s.queue.length s.nextIndex ∧
  (s.state = SState.finished ↔ s.nextIndex = s.queue.length ∧ s.queue ≠ []) ∧
  s.state ≠ SState.idle

/-- The state invariant stated by the spec (section 3): bounded cursor,
nonnegative countdown, nonnegative durations, and Finished exactly at the
end of the queue. -/
def StateInv (s : Scheduler α) : Prop :=
  0 ≤ s.startupDelay ∧
  (∀ u ∈ s.queue, 0 ≤ u.idleAfter) ∧
  s.nextIndex ≤ s.queue.length ∧
  0 ≤ s.remainingIdle ∧
  (s.state = SState.finished ↔ s.nextIndex = s.queue.length)

instance (s : Scheduler α) : Decidable (StateInv s) := by
  unfold StateInv
  infer_instance

end SchedulerModel3

/-!
The concrete load tasks, translated from the header source.  File names,
plist names and sprite-frame names are embedded as opaque identifiers
(natural numbers); byte buffers are lists of bytes.  The pointer comparison
`dec != data` of the source is modelled by buffer tags: tag 0 is the raw
buffer returned by `getFileData`, tag 1 the fresh buffer returned by the
decrypt hook; when no hook is supplied the source aliases `dec = data`, so
only tag 0 exists.
-/

/-- One observable backend effect of an encrypted-image / encrypted-atlas
unit's `load()`, in execution order. -/
inductive Effect
  | getFileData (name : ℕ) (data : List ℕ)
  | decryptCall (input output : List ℕ)
  | initImageData (data : List ℕ)
  | addUIImage (name : ℕ)
  | addSpriteFrames (plist : ℕ)
  | freeBuf (tag : ℕ)
deriving DecidableEq

/-- Task EncryptedImageLoadTask (header lines 135–168): the image name and the
optional decrypt function pointer (`DECRYPT_FUNC func`; `none` models a null
pointer). -/
structure EncryptedImageLoadTask where
  name : ℕ
  func : Option (List ℕ → List ℕ)

/-- Source method EncryptedImageLoadTask::load (header lines 144–167): read the raw file
data, decrypt it through `func` when present (otherwise alias the raw
buffer), decode the resulting bytes into a texture registered under `name`,
then free the decrypted buffer when it is distinct from the raw one and
always free the raw buffer. -/
def EncryptedImageLoadTask.load (fs : ℕ → List ℕ) (t : EncryptedImageLoadTask) :
    List Effect :=
  let data := fs t.name
  match t.func with
  | some f =>
      let dec := f data
      [Effect.getFileData t.name data, Effect.decryptCall data dec,
       Effect.initImageData dec, Effect.addUIImage t.name,
       Effect.freeBuf 1, Effect.freeBuf 0]
  | none =>
      [Effect.getFileData t.name data,
       Effect.initImageData data, Effect.addUIImage t.name,
       Effect.freeBuf 0]

/-- Task EncryptedZwoptexLoadTask (header lines 183–222): plist name (not
encrypted), encrypted texture name, optional decrypt function. -/
structure EncryptedZwoptexLoadTask where
  name : ℕ
  texName : ℕ
  func : Option (List ℕ → List ℕ)

/-- Source method EncryptedZwoptexLoadTask::load (header lines 195–221): like the
encrypted image task on `texName`, followed by registering the sprite frames
of the plist against the created texture. -/
def EncryptedZwoptexLoadTask.load (fs : ℕ → List ℕ) (t : EncryptedZwoptexLoadTask) :
    List Effect :=
  let data := fs t.texName
  match t.func with
  | some f =>
      let dec := f data
      [Effect.getFileData t.texName data, Effect.decryptCall data dec,
       Effect.initImageData dec, Effect.addUIImage t.texName,
       Effect.freeBuf 1, Effect.freeBuf 0, Effect.addSpriteFrames t.name]
  | none =>
      [Effect.getFileData t.texName data,
       Effect.initImageData data, Effect.addUIImage t.texName,
       Effect.freeBuf 0, Effect.addSpriteFrames t.name]

/-- The inputs of all decrypt-hook calls of a trace, in order. -/
def decryptInputs (t : List Effect) : List (List ℕ) :=
  t.filterMap fun e =>
    match e with
    | Effect.decryptCall i _ => some i
    | _ => none

/-- The byte buffers handed to the image decoder, in order. -/
def decodeInputs (t : List Effect) : List (List ℕ) :=
  t.filterMap fun e =>
    match e with
    | Effect.initImageData d => some d
    | _ => none

def isDecode : Effect → Bool
  | Effect.initImageData _ => true
  | _ => false

/-- All decrypt calls of the trace happen strictly before the first decode:
the part of the trace from the first decode on contains no decrypt call. -/
def decryptsPrecedeDecode (t : List Effect) : Prop :=
  decryptInputs (t.dropWhile fun e => !(isDecode e)) = []

/-- The raw file buffer (tag 0) is released after use: a `free` of it occurs
in the part of the trace from the first decode on. -/
def rawFreedAfterUse (t : List Effect) : Prop :=
  Effect.freeBuf 0 ∈ t.dropWhile fun e => !(isDecode e)

/-- An animation value held by the animation cache: either the uniform-delay
form built by `ZwoptexAnimLoadTask` or the per-frame-delay form built by
`ZwoptexAnimLoadTask2`.  Per-frame delays are opaque payload (`τ`): the
source passes them through to the backend untouched. -/
inductive AnimVal (τ : Type)
  | uniform (frames : List ℕ) (unitDelay : τ) (restore : Bool)
  | perFrame (frames : List (ℕ × τ)) (restore : Bool)
deriving DecidableEq

/-- The shared animation cache (`CCAnimationCache`), an association of
animation names to animations. -/
abbrev AnimCache (τ : Type) : Type := List (ℕ × AnimVal τ)

section AnimModel

variable {τ : Type}

/-- Task ZwoptexAnimLoadTask (header lines 225–259): frame name list, animation
name, uniform unit delay, restore-original-frame flag. -/
structure ZwoptexAnimLoadTask (τ : Type) where
  frames : List ℕ
  name : ℕ
  unitDelay : τ
  restoreOriginalFrame : Bool

/-- Source method ZwoptexAnimLoadTask::load (header lines 246–258): when no animation of
this name is cached yet, resolve every frame name through the sprite frame
cache `sfc`, assemble a uniform-delay animation and register it under
`name`; otherwise do nothing. -/
def ZwoptexAnimLoadTask.load (sfc : ℕ → ℕ) (t : ZwoptexAnimLoadTask τ)
    (cache : AnimCache τ) : AnimCache τ :=
  if (List.lookup t.name cache).isSome then cache
  else cache ++ [(t.name, AnimVal.uniform (t.frames.map sfc) t.unitDelay t.restoreOriginalFrame)]

/-- Task ZwoptexAnimLoadTask2 (header lines 263–302): frame name list, duration
list, restore flag, animation name. -/
structure ZwoptexAnimLoadTask2 (τ : Type) where
  frames : List ℕ
  durations : List τ
  restoreOriginalFrame : Bool
  name : ℕ

/-- The loop of `ZwoptexAnimLoadTask2::load` (header lines 289–296): for
`i = 0 .. frames.size - 1` pair the resolved sprite frame with
`durations.at(i)`; `vector::at` raises `std::out_of_range` — modelled as
`none` — at the first index beyond the end of the duration list. -/
def buildAnimFrames (sfc : ℕ → ℕ) : List ℕ → List τ → Option (List (ℕ × τ))
  | [], _ => some []
  | _ :: _, [] => none
  | f :: fr, d :: dr => (buildAnimFrames sfc fr dr).map (fun r => (sfc f, d) :: r)

/-- The error raised by `vector::at` in `ZwoptexAnimLoadTask2::load` when the
duration list is shorter than the frame list (the spec's
ConfigurationError). -/
inductive ConfigurationError
  | outOfRange
deriving DecidableEq

/-- Source method ZwoptexAnimLoadTask2::load (header lines 284–301): when no animation of
this name is cached yet, build the per-frame-delay animation — raising
out-of-range if the duration list runs out before the frame list — and
register it under `name`; otherwise do nothing.  The cache is mutated only
by the final registration, so a raised error leaves it unchanged. -/
def ZwoptexAnimLoadTask2.load (sfc : ℕ → ℕ) (t : ZwoptexAnimLoadTask2 τ)
    (cache : AnimCache τ) : Except ConfigurationError (AnimCache τ) :=
  if (List.lookup t.name cache).isSome then Except.ok cache
  else
    match buildAnimFrames sfc t.frames t.durations with
    | none => Except.error ConfigurationError.outOfRange
    | some afs => Except.ok (cache ++ [(t.name, AnimVal.perFrame afs t.restoreOriginalFrame)])

end AnimModel


/-! Helper lemmas about the scheduler model. -/

section SchedulerLemmas

variable {α : Type} [LinearOrderedAddCommGroup α]

@[simp] lemma drainTick_state (s : Scheduler α) (d : α) :
    (drainTick s d).state = s.state := by
  unfold drainTick; split <;> rfl

@[simp] lemma drainTick_queue (s : Scheduler α) (d : α) :
    (drainTick s d).queue = s.queue := by
  unfold drainTick; split <;> rfl

@[simp] lemma drainTick_nextIndex (s : Scheduler α) (d : α) :
    (drainTick s d).nextIndex = s.nextIndex := by
  unfold drainTick; split <;> rfl

@[simp] lemma drainTick_events (s : Scheduler α) (d : α) :
    (drainTick s d).events = s.events := by
  unfold drainTick; split <;> rfl

@[simp] lemma drainTick_startupDelay (s : Scheduler α) (d : α) :
    (drainTick s d).startupDelay = s.startupDelay := by
  unfold drainTick; split <;> rfl

lemma drainTick_remainingIdle_nonneg (s : Scheduler α) (d : α) (h : 0 ≤ s.remainingIdle) :
    0 ≤ (drainTick s d).remainingIdle := by
  unfold drainTick; split
  · exact le_max_right _ _
  · exact h

lemma drainTick_of_zero (s : Scheduler α) (d : α) (h : s.remainingIdle = 0) :
    drainTick s d = s := by
  unfold drainTick
  rw [if_neg]
  rw [h]
  exact lt_irrefl 0

lemma drainTick_remainingIdle_fit (s : Scheduler α) (d : α) (hr : 0 ≤ s.remainingIdle)
    (h0 : 0 ≤ d) (hd : d ≤ s.remainingIdle) :
    (drainTick s d).remainingIdle = s.remainingIdle - d := by
  unfold drainTick; split_ifs with h
  · show max (s.remainingIdle - d) 0 = s.remainingIdle - d
    exact max_eq_left (sub_nonneg.mpr hd)
  · have hz : s.remainingIdle = 0 := le_antisymm (not_lt.mp h) hr
    have hdz : d = 0 := le_antisymm (hz ▸ hd) h0
    rw [hdz, sub_zero]

@[simp] lemma execNext_queue (s : Scheduler α) : (execNext s).queue = s.queue := by
  unfold execNext; split <;> rfl

@[simp] lemma execNext_startupDelay (s : Scheduler α) :
    (execNext s).startupDelay = s.startupDelay := by
  unfold execNext; split <;> rfl

@[simp] lemma advance_queue (s : Scheduler α) (d : α) : (advance s d).queue = s.queue := by
  unfold advance; split_ifs <;> simp

@[simp] lemma advance_startupDelay (s : Scheduler α) (d : α) :
    (advance s d).startupDelay = s.startupDelay := by
  unfold advance; split_ifs <;> simp

lemma advance_of_idle (s : Scheduler α) (d : α) (h : s.state = SState.idle) :
    advance s d = s := by
  unfold advance; rw [if_pos (Or.inl h)]

lemma advance_of_finished (s : Scheduler α) (d : α) (h : s.state = SState.finished) :
    advance s d = s := by
  unfold advance; rw [if_pos (Or.inr h)]

lemma drop_len_append {β : Type} (l1 l2 : List β) : (l1 ++ l2).drop l1.length = l2 := by
  induction l1 with
  | nil => simp
  | cons a t ih => simp [ih]

lemma execNext_events (s : Scheduler α) :
    (execNext s).events = s.events ++
      (if s.nextIndex < s.queue.length then
        [Event.executed s.nextIndex, Event.unitLoaded s.nextIndex s.queue.length] ++
          (if s.nextIndex + 1 = s.queue.length then [Event.allLoaded] else [])
      else []) := by
  unfold execNext
  split
  · simp [List.append_assoc]
  · simp

/-- During one tick at most the events of a single unit execution are
emitted: nothing, or one `executed`/`unitLoaded` pair, or that pair followed
by `allLoaded`. -/
lemma tickEvents_shape (s : Scheduler α) (d : α) :
    tickEvents s d = [] ∨
    (∃ i, tickEvents s d = [Event.executed i, Event.unitLoaded i s.queue.length]) ∨
    (∃ i, tickEvents s d =
      [Event.executed i, Event.unitLoaded i s.queue.length, Event.allLoaded]) := by
  unfold tickEvents advance
  split_ifs with h1 h2
  · left; exact List.drop_length _
  · rw [execNext_events, drainTick_events, drainTick_queue, drainTick_nextIndex,
      drop_len_append]
    split_ifs with h3 h4
    · right; right; exact ⟨s.nextIndex, rfl⟩
    · right; left; exact ⟨s.nextIndex, rfl⟩
    · left; rfl
  · left; rw [drainTick_events]; exact List.drop_length _

lemma advance_events_append (s : Scheduler α) (d : α) :
    (advance s d).events = s.events ++ tickEvents s d := by
  unfold tickEvents advance
  split_ifs with h1 h2
  · simp [List.drop_length]
  · rw [execNext_events, drainTick_events, drainTick_queue, drainTick_nextIndex,
      drop_len_append]
  · simp [List.drop_length]

end SchedulerLemmas

/-! Lemmas about the canonical event log. -/

lemma goodEvents_zero (N : ℕ) : goodEvents N 0 = [] := by
  have h : ¬(0 = N ∧ 0 < N) := by omega
  simp [goodEvents, goodEventsCore, h]

lemma goodEvents_lt (N k : ℕ) (hk : k < N) : goodEvents N k = goodEventsCore N k := by
  have h : ¬(k = N ∧ 0 < N) := by omega
  simp [goodEvents, h]

lemma goodEvents_step (N k : ℕ) (hk : k < N) :
    goodEvents N k ++
      ([Event.executed k, Event.unitLoaded k N] ++
        (if k + 1 = N then [Event.allLoaded] else [])) = goodEvents N (k + 1) := by
  rw [goodEvents_lt N k hk]
  unfold goodEvents
  rw [show goodEventsCore N (k + 1)
      = goodEventsCore N k ++ [Event.executed k, Event.unitLoaded k N] from rfl]
  rw [List.append_assoc]
  congr 1
  congr 1
  refine if_congr ?_ rfl rfl
  constructor
  · intro h; exact ⟨h, by omega⟩
  · rintro ⟨h, _⟩; exact h

lemma goodEvents_full (N : ℕ) (hN : 0 < N) :
    goodEvents N N = goodEventsCore N N ++ [Event.allLoaded] := by
  unfold goodEvents
  rw [if_pos ⟨rfl, hN⟩]

lemma goodEventsCore_count_unitLoaded (N k i : ℕ) :
    (goodEventsCore N k).count (Event.unitLoaded i N) = if i < k then 1 else 0 := by
  induction k with
  | zero => simp [goodEventsCore]
  | succ k ih =>
      rw [goodEventsCore, List.count_append, ih]
      have hpair : List.count (Event.unitLoaded i N)
          [Event.executed k, Event.unitLoaded k N] = if i = k then 1 else 0 := by
        by_cases hik : i = k
        · subst hik; simp [List.count_cons]
        · simp [List.count_cons, hik]
      rw [hpair]
      split_ifs <;> omega

lemma goodEventsCore_count_allLoaded (N k : ℕ) :
    (goodEventsCore N k).count Event.allLoaded = 0 := by
  induction k with
  | zero => simp [goodEventsCore]
  | succ k ih =>
      rw [goodEventsCore, List.count_append, ih]
      simp [List.count_cons]

lemma goodEventsCore_filterMap (N k : ℕ) :
    (goodEventsCore N k).filterMap unitLoadedIndex = List.range k := by
  induction k with
  | zero => simp [goodEventsCore]
  | succ k ih =>
      rw [goodEventsCore, List.filterMap_append, ih, List.range_succ]
      simp [unitLoadedIndex, List.filterMap_cons]

/-! Preservation of the structural well-formedness invariant. -/

section WfLemmas

variable {α : Type} [LinearOrderedAddCommGroup α]

lemma wf_drainTick (s : Scheduler α) (d : α) (h : Wf s) : Wf (drainTick s d) := by
  obtain ⟨h1, h2, h3, h4, h5, h6⟩ := h
  exact ⟨drainTick_remainingIdle_nonneg s d h1,
    by simpa using h2, by simpa using h3, by simpa using h4,
    by simpa using h5, by simpa using h6⟩

lemma wf_execNext (s : Scheduler α) (h : Wf s) : Wf (execNext s) := by
  obtain ⟨h1, h2, h3, h4, h5, h6⟩ := h
  unfold execNext
  split
  case isTrue hlt =>
    refine ⟨h3 _ (s.queue.get_mem s.nextIndex hlt),
      by show s.nextIndex + 1 ≤ s.queue.length; omega,
      h3, ?_, ?_, ?_⟩
    · show s.events ++ [Event.executed s.nextIndex, Event.unitLoaded s.nextIndex s.queue.length]
          ++ (if s.nextIndex + 1 = s.queue.length then [Event.allLoaded] else [])
        = goodEvents s.queue.length (s.nextIndex + 1)
      rw [h4, List.append_assoc]
      exact goodEvents_step s.queue.length s.nextIndex hlt
    · show (if s.nextIndex + 1 = s.queue.length then SState.finished else SState.active)
          = SState.finished ↔ (s.nextIndex + 1 = s.queue.length ∧ s.queue ≠ [])
      split_ifs with he
      · constructor
        · intro _
          refine ⟨he, ?_⟩
          intro hq
          rw [hq] at he
          simp at he
        · intro _; rfl
      · constructor
        · intro hcontr; exact absurd hcontr (by decide)
        · rintro ⟨hh, _⟩; exact absurd hh he
    · show (if s.nextIndex + 1 = s.queue.length then SState.finished else SState.active)
          ≠ SState.idle
      split_ifs <;> decide
  case isFalse hlt => exact ⟨h1, h2, h3, h4, h5, h6⟩

lemma wf_advance (s : Scheduler α) (d : α) (h : Wf s) : Wf (advance s d) := by
  unfold advance
  split_ifs with h1 h2
  · exact h
  · exact wf_execNext _ (wf_drainTick s d h)
  · exact wf_drainTick s d h

lemma wf_runTicks (ds : List α) (s : Scheduler α) (h : Wf s) : Wf (runTicks s ds) := by
  induction ds generalizing s with
  | nil => exact h
  | cons d ds ih => exact ih (advance s d) (wf_advance s d h)

lemma wf_startLoader (st : α) (q : List (LoadUnit α)) (hst : 0 ≤ st)
    (hq : ∀ u ∈ q, 0 ≤ u.idleAfter) : Wf (startLoader st q) := by
  refine ⟨hst, Nat.zero_le _, hq, ?_, ?_, ?_⟩
  · show ([] : List Event) = goodEvents q.length 0
    rw [goodEvents_zero]
  · show SState.starting = SState.finished ↔ (0 = q.length ∧ q ≠ [])
    constructor
    · intro hcontr; exact absurd hcontr (by decide)
    · rintro ⟨hlen, hne⟩
      exact absurd (List.length_eq_zero.mp hlen.symm) hne
  · exact (by decide : SState.starting ≠ SState.idle)

end WfLemmas

/-! Preservation of the spec's state invariant. -/

section StateInvLemmas

variable {α : Type} [LinearOrderedAddCommGroup α]

lemma stateInv_drainTick (s : Scheduler α) (d : α) (h : StateInv s) :
    StateInv (drainTick s d) := by
  obtain ⟨h0, h1, h2, h3, h4⟩ := h
  exact ⟨by simpa using h0, by simpa using h1, by simpa using h2,
    drainTick_remainingIdle_nonneg s d h3, by simpa using h4⟩

lemma stateInv_execNext (s : Scheduler α) (h : StateInv s) : StateInv (execNext s) := by
  obtain ⟨h0, h1, h2, h3, h4⟩ := h
  unfold execNext
  split
  case isTrue hlt =>
    refine ⟨h0, h1, by show s.nextIndex + 1 ≤ s.queue.length; omega,
      h1 _ (s.queue.get_mem s.nextIndex hlt), ?_⟩
    show (if s.nextIndex + 1 = s.queue.length then SState.finished else SState.active)
        = SState.finished ↔ s.nextIndex + 1 = s.queue.length
    split_ifs with he
    · simp [he]
    · simp [he]
  case isFalse hlt => exact ⟨h0, h1, h2, h3, h4⟩

lemma stateInv_advance (s : Scheduler α) (d : α) (h : StateInv s) :
    StateInv (advance s d) := by
  unfold advance
  split_ifs with h1 h2
  · exact h
  · exact stateInv_execNext _ (stateInv_drainTick s d h)
  · exact stateInv_drainTick s d h

lemma stateInv_run (s : Scheduler α) (h : StateInv s) : StateInv (run s) := by
  obtain ⟨h0, h1, h2, h3, h4⟩ := h
  unfold run
  split_ifs with hi
  · refine ⟨h0, h1, h2, h0, ?_⟩
    show SState.starting = SState.finished ↔ s.nextIndex = s.queue.length
    constructor
    · intro hcontr; exact absurd hcontr (by decide)
    · intro hh
      have hfin := h4.mpr hh
      rw [hi] at hfin
      exact absurd hfin (by decide)
  · exact ⟨h0, h1, h2, h3, h4⟩

lemma stateInv_addLoadTask (s : Scheduler α) (u : LoadUnit α) (h : StateInv s)
    (hu : 0 ≤ u.idleAfter) (hs : s.state ≠ SState.finished) :
    StateInv (addLoadTask s u) := by
  obtain ⟨h0, h1, h2, h3, h4⟩ := h
  refine ⟨h0, ?_, ?_, h3, ?_⟩
  · intro v hv
    rcases List.mem_append.mp hv with hv | hv
    · exact h1 v hv
    · rw [List.mem_singleton.mp hv]; exact hu
  · show s.nextIndex ≤ (s.queue ++ [u]).length
    rw [List.length_append]
    simp
    omega
  · show s.state = SState.finished ↔ s.nextIndex = (s.queue ++ [u]).length
    rw [List.length_append]
    constructor
    · intro hh; exact absurd hh hs
    · intro hh
      simp at hh
      omega

end StateInvLemmas

/-! Timing accounting for overshoot-free tick schedules. -/

section TimingLemmas

variable {α : Type} [LinearOrderedAddCommGroup α]

lemma idleSum_zero (q : List (LoadUnit α)) : idleSum q 0 = 0 := by
  simp [idleSum]

lemma idleSum_succ (q : List (LoadUnit α)) (k : ℕ) (h : k < q.length) :
    idleSum q (k + 1) = idleSum q k + (q.get ⟨k, h⟩).idleAfter := by
  unfold idleSum
  have hL : k < (q.map LoadUnit.idleAfter).length := by simpa using h
  rw [List.map_take, List.map_take, List.sum_take_succ _ _ hL]
  simp

lemma drainTick_phi (s : Scheduler α) (d : α) (h1 : 0 ≤ s.remainingIdle)
    (hd0 : 0 ≤ d) (hdr : d ≤ s.remainingIdle) :
    phi (drainTick s d) = phi s - d := by
  unfold phi
  rw [drainTick_queue, drainTick_nextIndex, drainTick_remainingIdle_fit s d h1 hd0 hdr]
  abel

lemma execNext_state_ne_finished (s' : Scheduler α) (hs' : s'.state ≠ SState.finished)
    (hne : s'.nextIndex + 1 ≠ s'.queue.length) : (execNext s').state ≠ SState.finished := by
  by_cases hlt : s'.nextIndex < s'.queue.length
  · unfold execNext
    rw [dif_pos hlt]
    show (if s'.nextIndex + 1 = s'.queue.length then SState.finished else SState.active)
        ≠ SState.finished
    rw [if_neg hne]
    decide
  · unfold execNext
    rw [dif_neg hlt]
    exact hs'

lemma execNext_phi_keep (s' : Scheduler α) (hz : s'.remainingIdle = 0)
    (hne : s'.nextIndex + 1 ≠ s'.queue.length) :
    phi (execNext s') = phi s' := by
  unfold execNext
  split
  case isTrue hlt =>
    show idleSum s'.queue (s'.queue.length - 1) - idleSum s'.queue (s'.nextIndex + 1)
        + (s'.queue.get ⟨s'.nextIndex, hlt⟩).idleAfter
      = idleSum s'.queue (s'.queue.length - 1) - idleSum s'.queue s'.nextIndex
        + s'.remainingIdle
    rw [idleSum_succ s'.queue s'.nextIndex hlt, hz]
    abel
  case isFalse hlt => rfl

lemma phi_at_last (s' : Scheduler α) (hz : s'.remainingIdle = 0)
    (hlast : s'.nextIndex + 1 = s'.queue.length) : phi s' = 0 := by
  unfold phi
  rw [hz]
  have hIdx : s'.queue.length - 1 = s'.nextIndex := by omega
  rw [hIdx]
  abel

/-- One overshoot-free tick either transfers its delta into the potential
`phi` or, when it is the finishing tick, its delta is exactly the whole
remaining potential. -/
lemma tick_phi (s : Scheduler α) (d : α) (hwf : Wf s) (hnf : s.state ≠ SState.finished)
    (hd0 : 0 ≤ d) (hdr : d ≤ s.remainingIdle) :
    ((advance s d).state ≠ SState.finished → d + phi (advance s d) = phi s) ∧
    ((advance s d).state = SState.finished → d = phi s) := by
  obtain ⟨h1, h2, h3, h4, h5, h6⟩ := hwf
  have hphid : phi (drainTick s d) = phi s - d := drainTick_phi s d h1 hd0 hdr
  have hcond : ¬(s.state = SState.idle ∨ s.state = SState.finished) := by
    rintro (h | h)
    · exact h6 h
    · exact hnf h
  unfold advance
  rw [if_neg hcond]
  split_ifs with hz
  · by_cases hlast : (drainTick s d).nextIndex + 1 = (drainTick s d).queue.length
    · have hlt : (drainTick s d).nextIndex < (drainTick s d).queue.length := by omega
      constructor
      · intro hne
        exfalso
        apply hne
        show (execNext (drainTick s d)).state = SState.finished
        unfold execNext
        rw [dif_pos hlt]
        show (if (drainTick s d).nextIndex + 1 = (drainTick s d).queue.length
            then SState.finished else SState.active) = SState.finished
        rw [if_pos hlast]
      · intro _
        have hphi0 : phi (drainTick s d) = 0 := phi_at_last _ hz hlast
        have hps : phi s - d = 0 := hphid.symm.trans hphi0
        exact (sub_eq_zero.mp hps).symm
    · constructor
      · intro _
        rw [execNext_phi_keep _ hz hlast, hphid]
        abel
      · intro hfin2
        exact absurd hfin2
          (execNext_state_ne_finished _ (by rw [drainTick_state]; exact hnf) hlast)
  · have hstate : (drainTick s d).state = s.state := drainTick_state s d
    constructor
    · intro _
      rw [hphid]
      abel
    · intro hfin2
      rw [hstate] at hfin2
      exact absurd hfin2 hnf

/-- Along an overshoot-free tick schedule that first reaches Finished with
its last tick, the total elapsed time is exactly the initial potential. -/
lemma fit_sum (ds : List α) (s : Scheduler α) (hwf : Wf s)
    (hnf : s.state ≠ SState.finished)
    (hfit : fitSchedule s ds = true)
    (hfin : (runTicks s ds).state = SState.finished)
    (hmin : ∀ k, k < ds.length → (runTicks s (ds.take k)).state ≠ SState.finished) :
    ds.sum = phi s := by
  induction ds generalizing s with
  | nil => exact absurd hfin hnf
  | cons d ds ih =>
      have hfit' := hfit
      simp only [fitSchedule, Bool.and_eq_true, decide_eq_true_eq] at hfit'
      obtain ⟨⟨hd0, hdr⟩, hrest⟩ := hfit'
      by_cases hfin1 : (advance s d).state = SState.finished
      · cases ds with
        | nil =>
            have hone := (tick_phi s d hwf hnf hd0 hdr).2 hfin1
            show (d :: []).sum = phi s
            simp only [List.sum_cons, List.sum_nil, add_zero]
            exact hone
        | cons d2 ds2 =>
            exfalso
            have hm := hmin 1 (by simp)
            exact hm hfin1
      · have hwf' := wf_advance s d hwf
        have hfin' : (runTicks (advance s d) ds).state = SState.finished := hfin
        have hmin' : ∀ k, k < ds.length →
            (runTicks (advance s d) (ds.take k)).state ≠ SState.finished := by
          intro k hk
          exact hmin (k + 1) (by simp only [List.length_cons]; omega)
        have hsum := ih (advance s d) hwf' hfin1 hrest hfin' hmin'
        show (d :: ds).sum = phi s
        rw [List.sum_cons, hsum]
        exact (tick_phi s d hwf hnf hd0 hdr).1 hfin1

lemma phi_startLoader (st : α) (q : List (LoadUnit α)) :
    phi (startLoader st q) = idleSum q (q.length - 1) + st := by
  unfold phi
  show idleSum q (q.length - 1) - idleSum q 0 + st = idleSum q (q.length - 1) + st
  rw [idleSum_zero]
  abel

lemma runTicks_queue (ds : List α) (s : Scheduler α) : (runTicks s ds).queue = s.queue := by
  induction ds generalizing s with
  | nil => rfl
  | cons d ds ih => rw [show runTicks s (d :: ds) = runTicks (advance s d) ds from rfl,
      ih, advance_queue]

/-- A scheduler whose countdown is already zero and whose pending unit fails
produces the same backend error on every tick. -/
lemma advanceF_error_stable (s' : Scheduler α) (d : α)
    (hstate : ¬(s'.state = SState.idle ∨ s'.state = SState.finished))
    (hz : s'.remainingIdle = 0) (hlt : s'.nextIndex < s'.queue.length)
    (hbad : (s'.queue.getD s'.nextIndex ⟨0, true⟩).loadOk = false) :
    advanceF s' d = Except.error ⟨s'.nextIndex, s'⟩ := by
  have hdd : drainTick s' d = s' := drainTick_of_zero s' d hz
  unfold advanceF
  rw [if_neg hstate, hdd, if_pos ⟨hz, hlt⟩, if_neg]
  rw [hbad]
  exact fun hc => absurd hc (by decide)

end TimingLemmas

/-! The claims about the scheduler core (modelled from the spec). -/

/-- C1: during a single tick `advance(delta)` / `doLoad(delta)` at most one
queued unit's `load()` is executed, regardless of the magnitude of the
delta. -/
theorem spec_C1 {α : Type} [LinearOrderedAddCommGroup α] (s : Scheduler α) (d : α) :
    (tickEvents s d).countP isExecuted ≤ 1 := by
  rcases tickEvents_shape s d with h | ⟨i, h⟩ | ⟨i, h⟩ <;>
    rw [h] <;> simp [isExecuted]

/-- C2 (amended): along an overshoot-free tick schedule whose last tick first
reaches Finished, the total elapsed simulated time when `onAllLoaded` fires
equals the startup delay plus the idle values of all units except the last
one — the last unit's idle never elapses before the completion callback,
which fires in the same tick as the last unit's execution. -/
theorem spec_C2 {α : Type} [LinearOrderedAddCommGroup α] (st : α) (q : List (LoadUnit α))
    (ds : List α) (hst : 0 ≤ st) (hq : ∀ u ∈ q, 0 ≤ u.idleAfter)
    (hfit : fitSchedule (startLoader st q) ds = true)
    (hfin : (runTicks (startLoader st q) ds).state = SState.finished)
    (hmin : ∀ k, k < ds.length →
      (runTicks (startLoader st q) (ds.take k)).state ≠ SState.finished) :
    ds.sum = st + idleSum q (q.length - 1) := by
  have hwf := wf_startLoader st q hst hq
  have hnf : (startLoader st q).state ≠ SState.finished :=
    (by decide : SState.starting ≠ SState.finished)
  have hsum := fit_sum ds (startLoader st q) hwf hnf hfit hfin hmin
  rw [hsum, phi_startLoader]
  abel

/-- C2, counterexample to the claim as stated: a queue of one unit with idle
value 1 and startup delay 0, ticked once with delta 0 by an overshoot-free
schedule, fires `onAllLoaded` after a total elapsed time of 0, not
`s + Σ dᵢ = 1`. -/
theorem spec_C2_cex :
    fitSchedule (startLoader (0 : ℤ) [⟨1, true⟩]) [0] = true ∧
    (runTicks (startLoader (0 : ℤ) [⟨1, true⟩]) [0]).state = SState.finished ∧
    Event.allLoaded ∈ (runTicks (startLoader (0 : ℤ) [⟨1, true⟩]) [0]).events ∧
    ¬(([0] : List ℤ).sum
      = 0 + (([⟨1, true⟩] : List (LoadUnit ℤ)).map LoadUnit.idleAfter).sum) := by
  refine ⟨by decide, by decide, by decide, by decide⟩

/-- C2, witness: startup delay 1, two units with idles 2 and 3, exactly-fitting
ticks `[1, 2]`: `onAllLoaded` fires at elapsed time 3 = 1 + 2, the last
unit's idle (3) excluded. -/
theorem spec_C2_witness :
    (0 : ℤ) ≤ 1 ∧ (∀ u ∈ ([⟨2, true⟩, ⟨3, true⟩] : List (LoadUnit ℤ)), 0 ≤ u.idleAfter) ∧
    fitSchedule (startLoader (1 : ℤ) [⟨2, true⟩, ⟨3, true⟩]) [1, 2] = true ∧
    (runTicks (startLoader (1 : ℤ) [⟨2, true⟩, ⟨3, true⟩]) [1, 2]).state
      = SState.finished ∧
    (∀ k, k < ([1, 2] : List ℤ).length →
      (runTicks (startLoader (1 : ℤ) [⟨2, true⟩, ⟨3, true⟩])
        (([1, 2] : List ℤ).take k)).state ≠ SState.finished) ∧
    ([1, 2] : List ℤ).sum = 1 + idleSum ([⟨2, true⟩, ⟨3, true⟩] : List (LoadUnit ℤ)) 1 :=
  ⟨by decide, by decide, by decide, by decide, by decide,
    spec_C2 1 [⟨2, true⟩, ⟨3, true⟩] [1, 2] (by decide) (by decide) (by decide)
      (by decide) (by decide)⟩

/-- C3: over any completed run, `onUnitLoaded(i, N)` is emitted exactly once
per unit, immediately after that unit's execution and within the same tick
(per-tick shape), with indices strictly increasing (`filterMap = range N`),
all before the single `onAllLoaded`, which is emitted exactly once, last,
and within the same tick as the final execution. -/
theorem spec_C3 {α : Type} [LinearOrderedAddCommGroup α] (st : α) (q : List (LoadUnit α))
    (ds : List α) (hst : 0 ≤ st) (hq : ∀ u ∈ q, 0 ≤ u.idleAfter)
    (hfin : (runTicks (startLoader st q) ds).state = SState.finished) :
    (runTicks (startLoader st q) ds).events = goodEvents q.length q.length ∧
    (∀ i, i < q.length →
      (runTicks (startLoader st q) ds).events.count (Event.unitLoaded i q.length) = 1) ∧
    (runTicks (startLoader st q) ds).events.count Event.allLoaded = 1 ∧
    (runTicks (startLoader st q) ds).events.filterMap unitLoadedIndex
      = List.range q.length ∧
    (runTicks (startLoader st q) ds).events.getLast? = some Event.allLoaded ∧
    (∀ (s : Scheduler α) (d : α), tickEvents s d = [] ∨
      (∃ i, tickEvents s d = [Event.executed i, Event.unitLoaded i s.queue.length]) ∨
      (∃ i, tickEvents s d =
        [Event.executed i, Event.unitLoaded i s.queue.length, Event.allLoaded])) := by
  obtain ⟨w1, w2, w3, w4, w5, w6⟩ := wf_runTicks ds _ (wf_startLoader st q hst hq)
  have hQ : (runTicks (startLoader st q) ds).queue = q := runTicks_queue ds _
  obtain ⟨hidx, hne⟩ := w5.mp hfin
  rw [hQ] at hidx hne
  have hN : 0 < q.length := List.length_pos.mpr hne
  have hev : (runTicks (startLoader st q) ds).events = goodEvents q.length q.length := by
    rw [w4, hQ, hidx]
  refine ⟨hev, ?_, ?_, ?_, ?_, fun s d => tickEvents_shape s d⟩
  · intro i hi
    rw [hev, goodEvents_full q.length hN, List.count_append,
      goodEventsCore_count_unitLoaded, if_pos hi]
    simp
  · rw [hev, goodEvents_full q.length hN, List.count_append,
      goodEventsCore_count_allLoaded]
    simp
  · rw [hev, goodEvents_full q.length hN, List.filterMap_append,
      goodEventsCore_filterMap]
    simp [unitLoadedIndex]
  · rw [hev, goodEvents_full q.length hN]
    exact List.getLast?_concat _

/-- C3, witness: a one-unit queue with startup delay 0 completed by a single
zero tick. -/
theorem spec_C3_witness :
    (0 : ℤ) ≤ 0 ∧ (∀ u ∈ ([⟨0, true⟩] : List (LoadUnit ℤ)), 0 ≤ u.idleAfter) ∧
    (runTicks (startLoader (0 : ℤ) [⟨0, true⟩]) [0]).state = SState.finished ∧
    ((runTicks (startLoader (0 : ℤ) [⟨0, true⟩]) [0]).events = goodEvents 1 1 ∧
     (∀ i, i < ([⟨0, true⟩] : List (LoadUnit ℤ)).length →
       (runTicks (startLoader (0 : ℤ) [⟨0, true⟩]) [0]).events.count
         (Event.unitLoaded i ([⟨0, true⟩] : List (LoadUnit ℤ)).length) = 1) ∧
     (runTicks (startLoader (0 : ℤ) [⟨0, true⟩]) [0]).events.count Event.allLoaded = 1 ∧
     (runTicks (startLoader (0 : ℤ) [⟨0, true⟩]) [0]).events.filterMap unitLoadedIndex
       = List.range ([⟨0, true⟩] : List (LoadUnit ℤ)).length ∧
     (runTicks (startLoader (0 : ℤ) [⟨0, true⟩]) [0]).events.getLast?
       = some Event.allLoaded ∧
     (∀ (s : Scheduler ℤ) (d : ℤ), tickEvents s d = [] ∨
       (∃ i, tickEvents s d = [Event.executed i, Event.unitLoaded i s.queue.length]) ∨
       (∃ i, tickEvents s d =
         [Event.executed i, Event.unitLoaded i s.queue.length, Event.allLoaded]))) :=
  ⟨by decide, by decide, by decide,
    spec_C3 0 [⟨0, true⟩] [0] (by decide) (by decide) (by decide)⟩

/-- C4: every scheduler operation preserves the spec's state invariant —
the tick preserves it unconditionally, `run()` preserves it, and appending
preserves it for any scheduler that is not already Finished (appending after
Finished is the erroneous late append the spec flags, and it could only
break the Finished-iff-cursor-at-end clause). -/
theorem spec_C4 {α : Type} [LinearOrderedAddCommGroup α] (s : Scheduler α) (d : α)
    (u : LoadUnit α) (h : StateInv s) :
    StateInv (advance s d) ∧ StateInv (run s) ∧
    (0 ≤ u.idleAfter → s.state ≠ SState.finished → StateInv (addLoadTask s u)) :=
  ⟨stateInv_advance s d h, stateInv_run s h,
    fun hu hs => stateInv_addLoadTask s u h hu hs⟩

/-- C4, witness: a started two-unit scheduler satisfying the invariant,
ticked by 5 and extended by a unit of idle 1. -/
theorem spec_C4_witness :
    StateInv (startLoader (1 : ℤ) [⟨2, true⟩]) ∧
    (StateInv (advance (startLoader (1 : ℤ) [⟨2, true⟩]) 5) ∧
     StateInv (run (startLoader (1 : ℤ) [⟨2, true⟩])) ∧
     ((0 : ℤ) ≤ (⟨1, true⟩ : LoadUnit ℤ).idleAfter →
      (startLoader (1 : ℤ) [⟨2, true⟩]).state ≠ SState.finished →
      StateInv (addLoadTask (startLoader (1 : ℤ) [⟨2, true⟩]) ⟨1, true⟩))) :=
  ⟨by decide, spec_C4 (startLoader (1 : ℤ) [⟨2, true⟩]) 5 ⟨1, true⟩ (by decide)⟩

/-- C5: once Finished, every further tick is a complete no-op — the whole
scheduler state (state, cursor, countdown, queue, event log) is unchanged,
for the plain tick and for the fallible tick alike. -/
theorem spec_C5 {α : Type} [LinearOrderedAddCommGroup α] (s : Scheduler α) (d : α)
    (h : s.state = SState.finished) :
    advance s d = s ∧ advanceF s d = Except.ok s := by
  constructor
  · exact advance_of_finished s d h
  · unfold advanceF
    rw [if_pos (Or.inr h)]

/-- C5, witness: a concrete Finished scheduler ticked by 7. -/
theorem spec_C5_witness :
    advance (⟨SState.finished, 0, 1, 1, [⟨1, true⟩], goodEvents 1 1⟩ : Scheduler ℤ) 7
      = (⟨SState.finished, 0, 1, 1, [⟨1, true⟩], goodEvents 1 1⟩ : Scheduler ℤ) ∧
    advanceF (⟨SState.finished, 0, 1, 1, [⟨1, true⟩], goodEvents 1 1⟩ : Scheduler ℤ) 7
      = Except.ok (⟨SState.finished, 0, 1, 1, [⟨1, true⟩], goodEvents 1 1⟩ : Scheduler ℤ) :=
  spec_C5 _ 7 rfl

/-- C6 (amended): appending a unit after `run()` does not fail at all — the
source's `addLoadTask` is unguarded, so the unit is silently appended to the
queue and every other component of the scheduler state is unchanged. -/
theorem spec_C6 {α : Type} (s : Scheduler α) (u : LoadUnit α) :
    (addLoadTask s u).queue = s.queue ++ [u] ∧
    (addLoadTask s u).state = s.state ∧
    (addLoadTask s u).nextIndex = s.nextIndex ∧
    (addLoadTask s u).remainingIdle = s.remainingIdle ∧
    (addLoadTask s u).events = s.events :=
  ⟨rfl, rfl, rfl, rfl, rfl⟩

/-- C6, counterexample to the claim as stated: after `run()` an append does
mutate the queue (and, the append being total, raises nothing). -/
theorem spec_C6_cex :
    (addLoadTask (run (addLoadTask (newLoader (0 : ℤ)) ⟨1, true⟩)) ⟨2, true⟩).queue ≠
      (run (addLoadTask (newLoader (0 : ℤ)) ⟨1, true⟩)).queue ∧
    (addLoadTask (run (addLoadTask (newLoader (0 : ℤ)) ⟨1, true⟩)) ⟨2, true⟩).queue
      = [⟨1, true⟩, ⟨2, true⟩] := by
  refine ⟨by decide, by decide⟩

/-- C7: a unit whose `load()` fails aborts the tick: the cursor, queue, event
log and state are those from before the tick (the failing unit is not marked
complete and no notification is emitted), the error names the failing unit,
and retrying the tick re-attempts exactly the same unit with the same
outcome; the scheduler performs no catching. -/
theorem spec_C7 {α : Type} [LinearOrderedAddCommGroup α] (s : Scheduler α) (d : α)
    (e : BackendExecutionError α) (h : advanceF s d = Except.error e) :
    e.aborted.nextIndex = s.nextIndex ∧ e.aborted.queue = s.queue ∧
    e.aborted.events = s.events ∧ e.aborted.state = s.state ∧
    e.failedIndex = s.nextIndex ∧
    advanceF e.aborted d = Except.error e := by
  unfold advanceF at h
  split_ifs at h with h1 h2 h3
  injection h with h'
  obtain ⟨hz, hlt⟩ := h2
  subst h'
  have hstate1 : ¬((drainTick s d).state = SState.idle ∨
      (drainTick s d).state = SState.finished) := by
    rw [drainTick_state]
    exact h1
  have hbad : ((drainTick s d).queue.getD (drainTick s d).nextIndex ⟨0, true⟩).loadOk
      = false := by
    cases hcase : ((drainTick s d).queue.getD (drainTick s d).nextIndex ⟨0, true⟩).loadOk
    · rfl
    · exact absurd hcase h3
  exact ⟨drainTick_nextIndex s d, drainTick_queue s d, drainTick_events s d,
    drainTick_state s d, drainTick_nextIndex s d,
    advanceF_error_stable (drainTick s d) d hstate1 hz hlt hbad⟩

/-- C7, witness: a one-unit queue whose unit fails; the error carries the
untouched scheduler and retrying fails identically. -/
theorem spec_C7_witness :
    advanceF (startLoader (0 : ℤ) [⟨0, false⟩]) 0
      = Except.error ⟨0, startLoader (0 : ℤ) [⟨0, false⟩]⟩ ∧
    ((⟨0, startLoader (0 : ℤ) [⟨0, false⟩]⟩ :
        BackendExecutionError ℤ).aborted.nextIndex
      = (startLoader (0 : ℤ) [⟨0, false⟩]).nextIndex ∧
     (⟨0, startLoader (0 : ℤ) [⟨0, false⟩]⟩ :
        BackendExecutionError ℤ).aborted.queue
      = (startLoader (0 : ℤ) [⟨0, false⟩]).queue ∧
     (⟨0, startLoader (0 : ℤ) [⟨0, false⟩]⟩ :
        BackendExecutionError ℤ).aborted.events
      = (startLoader (0 : ℤ) [⟨0, false⟩]).events ∧
     (⟨0, startLoader (0 : ℤ) [⟨0, false⟩]⟩ :
        BackendExecutionError ℤ).aborted.state
      = (startLoader (0 : ℤ) [⟨0, false⟩]).state ∧
     (⟨0, startLoader (0 : ℤ) [⟨0, false⟩]⟩ :
        BackendExecutionError ℤ).failedIndex
      = (startLoader (0 : ℤ) [⟨0, false⟩]).nextIndex ∧
     advanceF (⟨0, startLoader (0 : ℤ) [⟨0, false⟩]⟩ :
        BackendExecutionError ℤ).aborted 0
      = Except.error ⟨0, startLoader (0 : ℤ) [⟨0, false⟩]⟩) :=
  ⟨rfl, spec_C7 (startLoader (0 : ℤ) [⟨0, false⟩]) 0 _ rfl⟩

/-! The claims about the concrete load tasks (translated from the header). -/

/-- C8: for both encrypted tasks, a supplied decrypt hook is invoked exactly
once, on the raw file bytes, strictly before the decoder receives any data,
and the decoder receives exactly the hook's output; with a null hook no
decrypt call happens and the decoder receives the raw bytes unmodified; in
all four cases the raw file buffer is freed after its use by the decoder. -/
theorem spec_C8 (fs : ℕ → List ℕ) (name plist texName : ℕ) (f : List ℕ → List ℕ) :
    (decryptInputs (EncryptedImageLoadTask.load fs ⟨name, some f⟩) = [fs name] ∧
     decodeInputs (EncryptedImageLoadTask.load fs ⟨name, some f⟩) = [f (fs name)] ∧
     decryptsPrecedeDecode (EncryptedImageLoadTask.load fs ⟨name, some f⟩) ∧
     rawFreedAfterUse (EncryptedImageLoadTask.load fs ⟨name, some f⟩)) ∧
    (decryptInputs (EncryptedImageLoadTask.load fs ⟨name, none⟩) = [] ∧
     decodeInputs (EncryptedImageLoadTask.load fs ⟨name, none⟩) = [fs name] ∧
     rawFreedAfterUse (EncryptedImageLoadTask.load fs ⟨name, none⟩)) ∧
    (decryptInputs (EncryptedZwoptexLoadTask.load fs ⟨plist, texName, some f⟩)
        = [fs texName] ∧
     decodeInputs (EncryptedZwoptexLoadTask.load fs ⟨plist, texName, some f⟩)
        = [f (fs texName)] ∧
     decryptsPrecedeDecode (EncryptedZwoptexLoadTask.load fs ⟨plist, texName, some f⟩) ∧
     rawFreedAfterUse (EncryptedZwoptexLoadTask.load fs ⟨plist, texName, some f⟩)) ∧
    (decryptInputs (EncryptedZwoptexLoadTask.load fs ⟨plist, texName, none⟩) = [] ∧
     decodeInputs (EncryptedZwoptexLoadTask.load fs ⟨plist, texName, none⟩)
        = [fs texName] ∧
     rawFreedAfterUse (EncryptedZwoptexLoadTask.load fs ⟨plist, texName, none⟩)) := by
  refine ⟨⟨rfl, rfl, rfl, ?_⟩, ⟨rfl, rfl, ?_⟩, ⟨rfl, rfl, rfl, ?_⟩, ⟨rfl, rfl, ?_⟩⟩
  · show Effect.freeBuf 0 ∈ [Effect.initImageData (f (fs name)),
      Effect.addUIImage name, Effect.freeBuf 1, Effect.freeBuf 0]
    simp
  · show Effect.freeBuf 0 ∈ [Effect.initImageData (fs name),
      Effect.addUIImage name, Effect.freeBuf 0]
    simp
  · show Effect.freeBuf 0 ∈ [Effect.initImageData (f (fs texName)),
      Effect.addUIImage texName, Effect.freeBuf 1, Effect.freeBuf 0,
      Effect.addSpriteFrames plist]
    simp
  · show Effect.freeBuf 0 ∈ [Effect.initImageData (fs texName),
      Effect.addUIImage texName, Effect.freeBuf 0, Effect.addSpriteFrames plist]
    simp

lemma buildAnimFrames_eq_none {τ : Type} (sfc : ℕ → ℕ) (fr : List ℕ) (du : List τ) :
    buildAnimFrames sfc fr du = none ↔ du.length < fr.length := by
  induction fr generalizing du with
  | nil => simp [buildAnimFrames]
  | cons fhd ftl ih =>
      cases du with
      | nil => simp [buildAnimFrames]
      | cons dhd dtl =>
          simp [buildAnimFrames, Option.map_eq_none', ih dtl, Nat.succ_lt_succ_iff]

/-- C9 (amended): executing a per-frame-delay animation unit raises the
out-of-range ConfigurationError exactly when the animation is not already
cached and the frame list is strictly longer than the duration list;
mismatched lists with at least as many durations as frames execute without
error (the extra durations are ignored), as does a unit whose animation name
is already cached. -/
theorem spec_C9 {τ : Type} (sfc : ℕ → ℕ) (t : ZwoptexAnimLoadTask2 τ)
    (cache : AnimCache τ) :
    (∃ err, ZwoptexAnimLoadTask2.load sfc t cache = Except.error err) ↔
      (List.lookup t.name cache = none ∧ t.durations.length < t.frames.length) := by
  unfold ZwoptexAnimLoadTask2.load
  split_ifs with hc
  · constructor
    · rintro ⟨err, herr⟩
      exact herr.elim
    · rintro ⟨hnone, _⟩
      rw [hnone] at hc
      simp at hc
  · have hnone : List.lookup t.name cache = none := by
      cases hl : List.lookup t.name cache
      · rfl
      · exact absurd (by rw [hl]; rfl) hc
    cases hb : buildAnimFrames sfc t.frames t.durations with
    | none =>
        constructor
        · intro _
          exact ⟨hnone, (buildAnimFrames_eq_none sfc t.frames t.durations).mp hb⟩
        · intro _
          exact ⟨ConfigurationError.outOfRange, rfl⟩
    | some afs =>
        constructor
        · rintro ⟨err, herr⟩
          exact Except.noConfusion herr
        · rintro ⟨_, hlen⟩
          have hcontr := (buildAnimFrames_eq_none sfc t.frames t.durations).mpr hlen
          rw [hb] at hcontr
          exact Option.noConfusion hcontr

/-- C9, counterexample to the claim as stated: a unit with one frame and two
durations (mismatched lengths) executes without any error against an empty
cache, and a cached unit with mismatched lists (frames longer) also executes
without error. -/
theorem spec_C9_cex :
    ZwoptexAnimLoadTask2.load (fun k => k) ⟨[5], [(1 : ℤ), 2], false, 7⟩ [] =
      Except.ok [(7, AnimVal.perFrame [(5, 1)] false)] ∧
    ([5] : List ℕ).length ≠ ([(1 : ℤ), 2] : List ℤ).length ∧
    ZwoptexAnimLoadTask2.load (fun k => k) ⟨[5, 6], [(1 : ℤ)], false, 7⟩
        [(7, AnimVal.uniform [] 0 false)] =
      Except.ok [(7, AnimVal.uniform [] 0 false)] ∧
    ([5, 6] : List ℕ).length ≠ ([(1 : ℤ)] : List ℤ).length :=
  ⟨rfl, by decide, rfl, by decide⟩

lemma lookup_append_isSome {τ : Type} (c : AnimCache τ) (k : ℕ) (v : AnimVal τ) :
    (List.lookup k (c ++ [(k, v)])).isSome = true := by
  induction c with
  | nil => simp [List.lookup]
  | cons p rest ih =>
      obtain ⟨a, b⟩ := p
      rw [List.cons_append]
      cases hk : (k == a)
      · simp [List.lookup, hk, ih]
      · simp [List.lookup, hk]

/-- C10: the animation load tasks are idempotent on the animation cache —
running the uniform-delay task a second time leaves the cache exactly as
after the first run, and a per-frame-delay task that succeeded once succeeds
again on its own result without changing it. -/
theorem spec_C10 {τ : Type} (sfc : ℕ → ℕ) (t1 : ZwoptexAnimLoadTask τ)
    (t2 : ZwoptexAnimLoadTask2 τ) (c c' : AnimCache τ)
    (h : ZwoptexAnimLoadTask2.load sfc t2 c = Except.ok c') :
    ZwoptexAnimLoadTask.load sfc t1 (ZwoptexAnimLoadTask.load sfc t1 c)
      = ZwoptexAnimLoadTask.load sfc t1 c ∧
    ZwoptexAnimLoadTask2.load sfc t2 c' = Except.ok c' := by
  constructor
  · by_cases hc : (List.lookup t1.name c).isSome = true
    · unfold ZwoptexAnimLoadTask.load
      rw [if_pos hc, if_pos hc]
    · have hinner : ZwoptexAnimLoadTask.load sfc t1 c
          = c ++ [(t1.name, AnimVal.uniform (t1.frames.map sfc) t1.unitDelay
              t1.restoreOriginalFrame)] := by
        unfold ZwoptexAnimLoadTask.load
        rw [if_neg hc]
      rw [hinner]
      unfold ZwoptexAnimLoadTask.load
      rw [if_pos (lookup_append_isSome c t1.name _)]
  · unfold ZwoptexAnimLoadTask2.load at h ⊢
    split_ifs at h with hc
    · injection h with h'
      subst h'
      rw [if_pos hc]
    · cases hb : buildAnimFrames sfc t2.frames t2.durations with
      | none =>
          rw [hb] at h
          exact Except.noConfusion h
      | some afs =>
          rw [hb] at h
          injection h with h'
          subst h'
          rw [if_pos (lookup_append_isSome c t2.name _)]

/-- C10, witness: concrete runs of both tasks against an empty cache. -/
theorem spec_C10_witness :
    ZwoptexAnimLoadTask2.load (fun k => k) ⟨[3], [(2 : ℤ)], false, 9⟩ [] =
      Except.ok [(9, AnimVal.perFrame [(3, 2)] false)] ∧
    (ZwoptexAnimLoadTask.load (fun k => k) ⟨[4], 8, (1 : ℤ), false⟩
        (ZwoptexAnimLoadTask.load (fun k => k) ⟨[4], 8, (1 : ℤ), false⟩ []) =
      ZwoptexAnimLoadTask.load (fun k => k) ⟨[4], 8, (1 : ℤ), false⟩ [] ∧
     ZwoptexAnimLoadTask2.load (fun k => k) ⟨[3], [(2 : ℤ)], false, 9⟩
        [(9, AnimVal.perFrame [(3, 2)] false)] =
      Except.ok [(9, AnimVal.perFrame [(3, 2)] false)]) :=
  ⟨rfl, spec_C10 (fun k => k) ⟨[4], 8, (1 : ℤ), false⟩ ⟨[3], [(2 : ℤ)], false, 9⟩ [] _ rfl⟩
